import Mathlib

/-!
# The monitor addon (`src/addons/monitor.c`)

A shallow embedding of the three system callbacks of the monitor addon
(`MonitorWorldStats`, `ReduceWorldStats`, `AggregateWorldStats`) and of the
registration done by `FlecsMonitorImport`, followed by the properties proved
about them.

* `FLECS_FLOAT` values (`elapsed`, `delta_time`) are rationals and every
  operation on them goes through a `FloatArith`, which rounds its result;
  `binary32` and `binary64` are the two IEEE 754 formats `FLECS_FLOAT` can be.
* `int32_t` values are integers; every arithmetic result is passed through
  `wrap32`.
* The statistics buffer `ecs_world_stats_t` and the five functions working on
  it live in another translation unit; they are the fields of `StatsOps`.
* Every callback also returns the list of buffer functions it called, in call
  order, so that statements about which functions are called can be made.
-/

namespace Monitor

/-! ## Machine arithmetic -/

/-- Two's complement reduction of an integer to the range of `int32_t`. -/
def wrap32 (x : Int) : Int :=
  (x + 2147483648) % 4294967296 - 2147483648

/-- The conversion `(int32_t)x` of a floating point value: C discards the
fractional part (rounds toward zero). C leaves the conversion of a value outside
the range of `int32_t` undefined; here it wraps, and the statements that depend
on it state the range. -/
def castInt32 (x : ℚ) : Int :=
  wrap32 (if 0 ≤ x then Int.floor x else Int.ceil x)

/-! ## Floating point arithmetic -/

/-- The arithmetic of `FLECS_FLOAT`: the sum and the product of two values of
the type, as the machine delivers them. `FLECS_FLOAT` is a macro defined outside
this unit, so the arithmetic is a parameter of the callbacks. -/
structure FloatArith where
  add : ℚ → ℚ → ℚ
  mul : ℚ → ℚ → ℚ

/-- The power `2 ^ e` of an integer exponent, as a rational. -/
def pow2 (e : Int) : ℚ :=
  if 0 ≤ e then ((2 ^ e.toNat : Nat) : ℚ) else 1 / ((2 ^ (-e).toNat : Nat) : ℚ)

/-- The number of binary digits of `n`; `fuel` bounds the recursion. -/
def bitLength : Nat → Nat → Nat
  | 0, _ => 0
  | fuel + 1, n => if n = 0 then 0 else bitLength fuel (n / 2) + 1

/-- The exponent of the binade of `x`: the integer `e` with
`2 ^ e <= |x| < 2 ^ (e + 1)`, for `x` other than 0. -/
def ilog2 (x : ℚ) : Int :=
  let e : Int := (bitLength x.num.natAbs x.num.natAbs : Int) - (bitLength x.den x.den : Int)
  if |x| < pow2 e then e - 1 else e

/-- Rounding to the nearest integer, a tie going to the even one. -/
def roundHalfEven (x : ℚ) : Int :=
  let f := Int.floor x
  let r := x - f
  if r < 1 / 2 then f else if 1 / 2 < r then f + 1 else if f % 2 = 0 then f else f + 1

/-- The value of the IEEE 754 binary format with `prec` significand bits and
least exponent `emin` (the exponent of its smallest positive value) that is
nearest to `x`, ties to even. The format is taken without an upper bound: a
result beyond its largest finite value is not turned into an infinity. -/
def roundTo (prec : Nat) (emin : Int) (x : ℚ) : ℚ :=
  if x = 0 then 0
  else
    let e := max (ilog2 x - ((prec : Int) - 1)) emin
    (roundHalfEven (x / pow2 e) : ℚ) * pow2 e

/-- The arithmetic of an IEEE 754 binary format: every operation is the exact
one followed by rounding to nearest. -/
def ieee (prec : Nat) (emin : Int) : FloatArith where
  add := fun a b => roundTo prec emin (a + b)
  mul := fun a b => roundTo prec emin (a * b)

/-- The type `float`, the default of `FLECS_FLOAT`. -/
def binary32 : FloatArith := ieee 24 (-149)

/-- The type `double`. -/
def binary64 : FloatArith := ieee 53 (-1074)

/-- The `float` nearest to `x`: how a frame time such as 1/60 s reaches the
callback. -/
def toFloat (x : ℚ) : ℚ := roundTo 24 (-149) x

/-- The `double` nearest to `x`. -/
def toDouble (x : ℚ) : ℚ := roundTo 53 (-1074) x

/-! ## Data model -/

/-- One call of a function of the statistics buffer API. -/
inductive Call where
  | copy_last : Call
  | get : Call
  | reduce : Call
  | reduce_last (count : Int) : Call
  | repeat_last : Call
  deriving DecidableEq, Repr

/-- The functions of the statistics buffer API used by the addon, over a world
type `W` and a buffer type `B` (`ecs_world_stats_t`). Each function returns the
new value of the buffer its first pointer argument designates; the other
arguments are read only.

* `last0` is the automatic variable `ecs_world_stats_t last` right after
  `last.t = 0`, before anything is copied into it;
* `zero` is the buffer of a component set with `{0}`. -/
structure StatsOps (W B : Type) where
  last0 : B
  zero : B
  get : W → B → B
  copy_last : B → B → B
  reduce : B → B → B
  reduce_last : B → B → Int → B
  repeat_last : B → B

/-- The component `EcsWorldStats`: one tier record. -/
structure EcsWorldStats (B : Type) where
  elapsed : ℚ
  reduce_count : Int
  stats : B
  deriving DecidableEq

/-- What a two-term callback leaves behind: both components and the calls made. -/
structure IterResult (B : Type) where
  dst : EcsWorldStats B
  src : EcsWorldStats B
  calls : List Call

/-! ## The callbacks -/

/-- The loop `for (i = 1; i < dif; i ++) ecs_world_stats_repeat_last(..)`,
as the number of iterations still to run. -/
def backfill {W B : Type} (ops : StatsOps W B) : Nat → B × List Call → B × List Call
  | 0, r => r
  | n + 1, (s, log) => backfill ops n (ops.repeat_last s, log ++ [Call.repeat_last])

/-- The callback `MonitorWorldStats` (the sampler of the seconds tier);
`real_world` and `delta_time` are the fields of the iterator it reads, `fa` is
the arithmetic of `FLECS_FLOAT`. -/
def MonitorWorldStats {W B : Type} (fa : FloatArith) (ops : StatsOps W B) (real_world : W)
    (delta_time : ℚ) (stats : EcsWorldStats B) : EcsWorldStats B × List Call :=
  let elapsed := stats.elapsed
  let stats := { stats with elapsed := fa.add stats.elapsed delta_time }
  let t_last := castInt32 (fa.mul elapsed 60)
  let t_next := castInt32 (fa.mul stats.elapsed 60)
  let dif := wrap32 (t_last - t_next)
  let last := ops.last0
  let log : List Call := []
  let copied : B × List Call :=
    if dif = 0 then (ops.copy_last last stats.stats, log ++ [Call.copy_last])
    else (last, log)
  let last := copied.1
  let log := copied.2
  let stats := { stats with stats := ops.get real_world stats.stats }
  let log := log ++ [Call.get]
  if dif = 0 then
    let stats := { stats with reduce_count := wrap32 (stats.reduce_count + 1) }
    ({ stats with stats := ops.reduce_last stats.stats last stats.reduce_count },
      log ++ [Call.reduce_last stats.reduce_count])
  else if dif > 1 then
    let filled := backfill ops (dif - 1).toNat (stats.stats, log)
    ({ stats with stats := filled.1, reduce_count := 0 }, filled.2)
  else
    (stats, log)

/-- The value `t_last - t_next` that `MonitorWorldStats` gives its local `dif`
for a tier at `elapsed` called with `delta_time`. -/
def slotDif (fa : FloatArith) (elapsed delta_time : ℚ) : Int :=
  wrap32 (castInt32 (fa.mul elapsed 60) - castInt32 (fa.mul (fa.add elapsed delta_time) 60))

/-- The callback `ReduceWorldStats`; term 1 is `dst`, term 2 is `src`. -/
def ReduceWorldStats {W B : Type} (ops : StatsOps W B) (dst src : EcsWorldStats B) :
    IterResult B :=
  { dst := { dst with stats := ops.reduce dst.stats src.stats }
    src := src
    calls := [Call.reduce] }

/-- The callback `AggregateWorldStats`; `interval` is `*(int32_t*)it->ctx`,
term 1 is `dst`, term 2 is `src`. -/
def AggregateWorldStats {W B : Type} (ops : StatsOps W B) (interval : Int)
    (dst src : EcsWorldStats B) : IterResult B :=
  let last := ops.last0
  let log : List Call := []
  let copied : B × List Call :=
    if dst.reduce_count ≠ 0 then (ops.copy_last last dst.stats, log ++ [Call.copy_last])
    else (last, log)
  let last := copied.1
  let log := copied.2
  let dst := { dst with stats := ops.reduce dst.stats src.stats }
  let log := log ++ [Call.reduce]
  let merged : EcsWorldStats B × List Call :=
    if dst.reduce_count ≠ 0 then
      ({ dst with stats := ops.reduce_last dst.stats last dst.reduce_count },
        log ++ [Call.reduce_last dst.reduce_count])
    else (dst, log)
  let dst := merged.1
  let log := merged.2
  let dst := { dst with reduce_count := wrap32 (dst.reduce_count + 1) }
  let dst := if dst.reduce_count ≥ interval then { dst with reduce_count := 0 } else dst
  { dst := dst, src := src, calls := log }

/-! ## Sequences of calls -/

/-- Consecutive calls of `MonitorWorldStats` on the seconds tier, one per frame,
each with its own world snapshot source and `delta_time`; the calls made are
collected in order. -/
def samplerRun {W B : Type} (fa : FloatArith) (ops : StatsOps W B) :
    List (W × ℚ) → EcsWorldStats B × List Call → EcsWorldStats B × List Call
  | [], r => r
  | (real_world, delta_time) :: frames, (stats, log) =>
      let r := MonitorWorldStats fa ops real_world delta_time stats
      samplerRun fa ops frames (r.1, log ++ r.2)

/-- The value of `elapsed` after frames of the listed `delta_time`s. -/
def elapsedAfter (fa : FloatArith) : List ℚ → ℚ → ℚ
  | [], elapsed => elapsed
  | delta_time :: rest, elapsed => elapsedAfter fa rest (fa.add elapsed delta_time)

/-- Every one of the listed frames moves the slot index the callback computes
forward by exactly one: `t_next = t_last + 1`. -/
def crossesOne (fa : FloatArith) : List ℚ → ℚ → Bool
  | [], _ => true
  | delta_time :: rest, elapsed =>
      decide (castInt32 (fa.mul (fa.add elapsed delta_time) 60) =
        castInt32 (fa.mul elapsed 60) + 1) &&
      crossesOne fa rest (fa.add elapsed delta_time)

/-- Consecutive calls of `AggregateWorldStats` on one destination, the source
tier having the listed values at the successive calls. -/
def aggregateRun {W B : Type} (ops : StatsOps W B) (interval : Int) :
    List (EcsWorldStats B) → EcsWorldStats B → EcsWorldStats B
  | [], dst => dst
  | src :: srcs, dst => aggregateRun ops interval srcs (AggregateWorldStats ops interval dst src).dst

/-! ## Registration (`FlecsMonitorImport`) -/

/-- The tags `EcsPeriod1s` .. `EcsPeriod1w`: the second element of the pair
`(EcsWorldStats, EcsPeriod..)` naming a tier. -/
inductive Period where
  | EcsPeriod1s | EcsPeriod1m | EcsPeriod1h | EcsPeriod1d | EcsPeriod1w
  deriving DecidableEq, Repr

/-- The entities of the five systems created by `FlecsMonitorImport`. -/
inductive System where
  | MonitorWorld1s | MonitorWorld1m | MonitorWorld1h | MonitorWorld1d | MonitorWorld1w
  deriving DecidableEq, Repr

/-- The three callbacks a system of the addon can have. -/
inductive Callback where
  | MonitorWorldStats | ReduceWorldStats | AggregateWorldStats
  deriving DecidableEq, Repr

/-- The fields of `ecs_system_desc_t` that `FlecsMonitorImport` sets. A field
the initializer leaves out is zero (`interval = 0`, `rate = 0`) or absent
(`term2`, `tick_source`, `ctx`). -/
structure SystemDesc where
  entity : System
  term1 : Period
  term2 : Option Period
  callback : Callback
  interval : ℚ
  rate : Int
  tick_source : Option System
  ctx : Option Int
  deriving DecidableEq, Repr

/-- The constant `flecs_day_interval_count`. -/
def flecs_day_interval_count : Int := 24

/-- The constant `flecs_week_interval_count`. -/
def flecs_week_interval_count : Int := 168

/-- The five `ecs_system_init` calls of `FlecsMonitorImport`, in source order. -/
def FlecsMonitorImport : List SystemDesc :=
  [ { entity := System.MonitorWorld1s, term1 := Period.EcsPeriod1s, term2 := none,
      callback := Callback.MonitorWorldStats, interval := 0, rate := 0,
      tick_source := none, ctx := none },
    { entity := System.MonitorWorld1m, term1 := Period.EcsPeriod1m,
      term2 := some Period.EcsPeriod1s,
      callback := Callback.ReduceWorldStats, interval := 1, rate := 0,
      tick_source := none, ctx := none },
    { entity := System.MonitorWorld1h, term1 := Period.EcsPeriod1h,
      term2 := some Period.EcsPeriod1m,
      callback := Callback.ReduceWorldStats, interval := 0, rate := 60,
      tick_source := some System.MonitorWorld1m, ctx := none },
    { entity := System.MonitorWorld1d, term1 := Period.EcsPeriod1d,
      term2 := some Period.EcsPeriod1m,
      callback := Callback.AggregateWorldStats, interval := 0, rate := 60,
      tick_source := some System.MonitorWorld1m, ctx := some flecs_day_interval_count },
    { entity := System.MonitorWorld1w, term1 := Period.EcsPeriod1w,
      term2 := some Period.EcsPeriod1h,
      callback := Callback.AggregateWorldStats, interval := 0, rate := 60,
      tick_source := some System.MonitorWorld1m, ctx := some flecs_week_interval_count } ]

/-- The descriptor registered for a system entity. -/
def descOf (e : System) : Option SystemDesc :=
  FlecsMonitorImport.find? (fun d => d.entity = e)

/-- Modelled from the spec: the scheduler behind `ecs_system_init` is not part
of this unit. Section 6 reads `.rate = 60` on the tick source `mw1m` as "every
60 minute-ticks": a system with a rate and a tick source runs once every `rate`
ticks of that source, and a system with an `interval` is a timer of that many
seconds. The result is the number of seconds between two runs of `e`, `none`
for a system that runs every frame; `fuel` bounds the tick source chain. -/
def secondsPerRun : Nat → System → Option ℚ
  | 0, _ => none
  | fuel + 1, e =>
      match descOf e with
      | none => none
      | some d =>
          if 0 < d.interval then some d.interval
          else
            match d.tick_source with
            | none => none
            | some t =>
                if 0 < d.rate then (secondsPerRun fuel t).map (fun p => (d.rate : ℚ) * p)
                else none

/-- The five components `(EcsWorldStats, EcsPeriod..)` of the entity `EcsWorld`. -/
structure Tiers (B : Type) where
  s1 : EcsWorldStats B
  m1 : EcsWorldStats B
  h1 : EcsWorldStats B
  d1 : EcsWorldStats B
  w1 : EcsWorldStats B

/-- The component of a tier. -/
def Tiers.get {B : Type} (w : Tiers B) : Period → EcsWorldStats B
  | Period.EcsPeriod1s => w.s1
  | Period.EcsPeriod1m => w.m1
  | Period.EcsPeriod1h => w.h1
  | Period.EcsPeriod1d => w.d1
  | Period.EcsPeriod1w => w.w1

/-- Overwriting the component of a tier. -/
def Tiers.set {B : Type} (w : Tiers B) (p : Period) (v : EcsWorldStats B) : Tiers B :=
  match p with
  | Period.EcsPeriod1s => { w with s1 := v }
  | Period.EcsPeriod1m => { w with m1 := v }
  | Period.EcsPeriod1h => { w with h1 := v }
  | Period.EcsPeriod1d => { w with d1 := v }
  | Period.EcsPeriod1w => { w with w1 := v }

/-- The five `ecs_set_pair(world, EcsWorld, EcsWorldStats, EcsPeriod.., {0})`. -/
def initialTiers {W B : Type} (ops : StatsOps W B) : Tiers B :=
  let z : EcsWorldStats B := { elapsed := 0, reduce_count := 0, stats := ops.zero }
  { s1 := z, m1 := z, h1 := z, d1 := z, w1 := z }

/-- One run of a registered system: its callback on the components its terms
name, the results written back. -/
def runSystem {W B : Type} (fa : FloatArith) (ops : StatsOps W B) (real_world : W)
    (delta_time : ℚ) (d : SystemDesc) (w : Tiers B) : Tiers B :=
  match d.callback, d.term2, d.ctx with
  | Callback.MonitorWorldStats, _, _ =>
      w.set d.term1 (MonitorWorldStats fa ops real_world delta_time (w.get d.term1)).1
  | Callback.ReduceWorldStats, some p2, _ =>
      let r := ReduceWorldStats ops (w.get d.term1) (w.get p2)
      (w.set p2 r.src).set d.term1 r.dst
  | Callback.AggregateWorldStats, some p2, some interval =>
      let r := AggregateWorldStats ops interval (w.get d.term1) (w.get p2)
      (w.set p2 r.src).set d.term1 r.dst
  | _, _, _ => w

/-- Any sequence of runs of the registered systems: each item names the system
and gives the world and `delta_time` of its iterator. -/
def runSystems {W B : Type} (fa : FloatArith) (ops : StatsOps W B) :
    List (System × W × ℚ) → Tiers B → Tiers B
  | [], w => w
  | (e, real_world, delta_time) :: rest, w =>
      match descOf e with
      | some d => runSystems fa ops rest (runSystem fa ops real_world delta_time d w)
      | none => runSystems fa ops rest w

/-! ## The running-average buffer -/

/-- The newest sample of a sample list (0 for an empty one). -/
def newest (b : List ℚ) : ℚ := b.getLastD 0

/-- Modelled from the spec: the statistics buffer and its functions are defined
outside this unit. This is the running-average buffer: a buffer is the list of
its samples, oldest first; `get` records the snapshot as the newest sample;
`copy_last` reads the newest sample; `reduce dst src` appends the value of the
source (`val src`) as the newest sample of `dst`; `reduce_last dst last w`
folds that newest sample back into the running one: the two are replaced by the
single sample `(w * last + newest) / (w + 1)`, so that the calls of one cycle
form a single destination sample (section 4.3) and the calls within one slot a
single slot sample; `repeat_last` appends a copy of the newest sample. -/
def avgOps (val : List ℚ → ℚ) : StatsOps ℚ (List ℚ) where
  last0 := []
  zero := []
  get := fun snapshot b => b ++ [snapshot]
  copy_last := fun _ src => [newest src]
  reduce := fun dst src => dst ++ [val src]
  reduce_last := fun dst last w =>
    dst.dropLast.dropLast ++ [((w : ℚ) * newest last + newest dst) / ((w : ℚ) + 1)]
  repeat_last := fun b => b ++ [newest b]

/-- The arithmetic mean of a list of rationals. -/
def mean (xs : List ℚ) : ℚ := xs.sum / (xs.length : ℚ)

/-- Sixty frames of the same `delta_time`; the snapshot taken in frame `i` has the
value `i`. -/
def sixtieths (delta_time : ℚ) : List (ℚ × ℚ) :=
  (List.range 60).map (fun i : Nat => ((i : ℚ), delta_time))

/-! ## Properties of `AggregateWorldStats` -/

theorem wrap32_of_range {x : Int} (h1 : -2147483648 ≤ x) (h2 : x < 2147483648) :
    wrap32 x = x := by
  unfold wrap32
  omega

theorem aggregate_stats_eq {W B : Type} (ops : StatsOps W B) (interval : Int)
    (dst src : EcsWorldStats B) :
    (AggregateWorldStats ops interval dst src).dst.stats =
      (if dst.reduce_count = 0 then ops.reduce dst.stats src.stats
       else ops.reduce_last (ops.reduce dst.stats src.stats)
              (ops.copy_last ops.last0 dst.stats) dst.reduce_count) := by
  unfold AggregateWorldStats
  dsimp only
  split_ifs <;> simp_all

theorem aggregate_calls_eq {W B : Type} (ops : StatsOps W B) (interval : Int)
    (dst src : EcsWorldStats B) :
    (AggregateWorldStats ops interval dst src).calls =
      (if dst.reduce_count = 0 then [Call.reduce]
       else [Call.copy_last, Call.reduce, Call.reduce_last dst.reduce_count]) := by
  unfold AggregateWorldStats
  by_cases h : dst.reduce_count = 0 <;> simp [h]

theorem aggregate_count_eq {W B : Type} (ops : StatsOps W B) (interval : Int)
    (dst src : EcsWorldStats B) :
    (AggregateWorldStats ops interval dst src).dst.reduce_count =
      (if interval ≤ wrap32 (dst.reduce_count + 1) then 0
       else wrap32 (dst.reduce_count + 1)) := by
  unfold AggregateWorldStats
  dsimp only
  split_ifs <;> simp_all

theorem aggregate_elapsed_eq {W B : Type} (ops : StatsOps W B) (interval : Int)
    (dst src : EcsWorldStats B) :
    (AggregateWorldStats ops interval dst src).dst.elapsed = dst.elapsed := by
  unfold AggregateWorldStats
  dsimp only
  split_ifs <;> simp_all

theorem aggregate_src_eq {W B : Type} (ops : StatsOps W B) (interval : Int)
    (dst src : EcsWorldStats B) :
    (AggregateWorldStats ops interval dst src).src = src := by
  unfold AggregateWorldStats
  rfl

/-- C1: one `AggregateWorldStats` call leaves the destination buffer equal to
`reduce(dst.buffer, src.buffer)` when the destination's `reduce_count` was 0, and
equal to `reduce_last(reduce(dst.buffer, src.buffer), last, c)` when it was
`c != 0`, where `last = copy_last(dst.buffer)` is taken before the reduce and `c`
is the count before the increment; with a count of 0 the only call made is
`reduce`, otherwise the calls are `copy_last`, `reduce`, `reduce_last c` in this
order. (`copy_last` fills the local `last`, which is `ops.last0` until then.) -/
theorem aggregate_buffer {W B : Type} (ops : StatsOps W B) (interval : Int)
    (dst src : EcsWorldStats B) :
    (AggregateWorldStats ops interval dst src).dst.stats =
        (if dst.reduce_count = 0 then ops.reduce dst.stats src.stats
         else ops.reduce_last (ops.reduce dst.stats src.stats)
                (ops.copy_last ops.last0 dst.stats) dst.reduce_count) ∧
    (AggregateWorldStats ops interval dst src).calls =
        (if dst.reduce_count = 0 then [Call.reduce]
         else [Call.copy_last, Call.reduce, Call.reduce_last dst.reduce_count]) :=
  ⟨aggregate_stats_eq ops interval dst src, aggregate_calls_eq ops interval dst src⟩

theorem aggregate_count_step {W B : Type} (ops : StatsOps W B) (interval : Int)
    (h32 : interval < 2147483648) (dst src : EcsWorldStats B)
    (hc0 : 0 ≤ dst.reduce_count) (hc : dst.reduce_count < interval) :
    (AggregateWorldStats ops interval dst src).dst.reduce_count =
      (dst.reduce_count + 1) % interval := by
  rw [aggregate_count_eq, wrap32_of_range (by omega) (by omega)]
  split_ifs with g
  · have e : dst.reduce_count + 1 = interval := by omega
    rw [e, Int.emod_self]
  · rw [Int.emod_eq_of_lt (by omega) (by omega)]

theorem aggregateRun_count {W B : Type} (ops : StatsOps W B) (interval : Int)
    (h1 : 1 ≤ interval) (h32 : interval < 2147483648) (srcs : List (EcsWorldStats B)) :
    ∀ dst : EcsWorldStats B, 0 ≤ dst.reduce_count → dst.reduce_count < interval →
      (aggregateRun ops interval srcs dst).reduce_count =
        (dst.reduce_count + (srcs.length : Int)) % interval := by
  induction srcs with
  | nil =>
      intro dst hc0 hc
      simp only [aggregateRun, List.length_nil, Int.Nat.cast_ofNat_Int, add_zero]
      rw [Int.emod_eq_of_lt hc0 hc]
  | cons src srcs ih =>
      intro dst hc0 hc
      have hs := aggregate_count_step ops interval h32 dst src hc0 hc
      have hpos : 0 < interval := by omega
      have hn : interval ≠ 0 := by omega
      simp only [aggregateRun, List.length_cons, Nat.cast_add, Nat.cast_one]
      rw [ih _ (by rw [hs]; exact Int.emod_nonneg _ hn)
            (by rw [hs]; exact Int.emod_lt_of_pos _ hpos), hs, Int.emod_add_emod]
      congr 1
      ring

/-- C2: for an interval with `1 <= interval` (an `int32_t`), one
`AggregateWorldStats` call on a destination whose `reduce_count` is `c`,
`0 <= c < interval`, sets it to `(c + 1) mod interval`, which is again in
`[0, interval)`; hence, starting from `reduce_count = 0`, the count after `n`
calls is `n mod interval`: it is `k` after `k < interval` calls, 0 after exactly
`interval` calls, and 1 after `interval + 1` calls when `interval > 1`. -/
theorem aggregate_reduce_count_cycle {W B : Type} (ops : StatsOps W B) (interval : Int)
    (h1 : 1 ≤ interval) (h32 : interval < 2147483648) :
    (∀ dst src : EcsWorldStats B, 0 ≤ dst.reduce_count → dst.reduce_count < interval →
      (AggregateWorldStats ops interval dst src).dst.reduce_count =
          (dst.reduce_count + 1) % interval ∧
      0 ≤ (AggregateWorldStats ops interval dst src).dst.reduce_count ∧
      (AggregateWorldStats ops interval dst src).dst.reduce_count < interval) ∧
    (∀ (dst : EcsWorldStats B) (srcs : List (EcsWorldStats B)), dst.reduce_count = 0 →
      (aggregateRun ops interval srcs dst).reduce_count = (srcs.length : Int) % interval) ∧
    (∀ (dst : EcsWorldStats B) (srcs : List (EcsWorldStats B)), dst.reduce_count = 0 →
      (srcs.length : Int) < interval →
      (aggregateRun ops interval srcs dst).reduce_count = (srcs.length : Int)) ∧
    (∀ (dst : EcsWorldStats B) (srcs : List (EcsWorldStats B)), dst.reduce_count = 0 →
      (srcs.length : Int) = interval →
      (aggregateRun ops interval srcs dst).reduce_count = 0) ∧
    (∀ (dst : EcsWorldStats B) (srcs : List (EcsWorldStats B)), dst.reduce_count = 0 →
      (srcs.length : Int) = interval + 1 → 1 < interval →
      (aggregateRun ops interval srcs dst).reduce_count = 1) := by
  have hpos : 0 < interval := by omega
  have hn : interval ≠ 0 := by omega
  have run : ∀ (dst : EcsWorldStats B) (srcs : List (EcsWorldStats B)),
      dst.reduce_count = 0 →
      (aggregateRun ops interval srcs dst).reduce_count = (srcs.length : Int) % interval := by
    intro dst srcs h0
    rw [aggregateRun_count ops interval h1 h32 srcs dst (by omega) (by omega), h0, zero_add]
  refine ⟨?_, run, ?_, ?_, ?_⟩
  · intro dst src hc0 hc
    have hs := aggregate_count_step ops interval h32 dst src hc0 hc
    exact ⟨hs, by rw [hs]; exact Int.emod_nonneg _ hn,
      by rw [hs]; exact Int.emod_lt_of_pos _ hpos⟩
  · intro dst srcs h0 hlt
    rw [run dst srcs h0, Int.emod_eq_of_lt (by omega) hlt]
  · intro dst srcs h0 heq
    rw [run dst srcs h0, heq, Int.emod_self]
  · intro dst srcs h0 heq hgt
    rw [run dst srcs h0, heq, Int.add_emod_self_left, Int.emod_eq_of_lt (by omega) hgt]

/-- The day stage (24) and the week stage (168): the count is back at 0 after 24
and after 168 calls, and is 1 after the 25th call of the day stage. -/
theorem aggregate_reduce_count_cycle_witness :
    (aggregateRun (avgOps newest) flecs_day_interval_count
        (List.replicate 24 { elapsed := 0, reduce_count := 0, stats := [1] })
        { elapsed := 0, reduce_count := 0, stats := [] }).reduce_count = 0 ∧
    (aggregateRun (avgOps newest) flecs_day_interval_count
        (List.replicate 25 { elapsed := 0, reduce_count := 0, stats := [1] })
        { elapsed := 0, reduce_count := 0, stats := [] }).reduce_count = 1 ∧
    (aggregateRun (avgOps newest) flecs_week_interval_count
        (List.replicate 168 { elapsed := 0, reduce_count := 0, stats := [1] })
        { elapsed := 0, reduce_count := 0, stats := [] }).reduce_count = 0 :=
  ⟨(aggregate_reduce_count_cycle (avgOps newest) flecs_day_interval_count
      (by decide) (by decide)).2.2.2.1 _ _ rfl (by rw [List.length_replicate]; rfl),
   (aggregate_reduce_count_cycle (avgOps newest) flecs_day_interval_count
      (by decide) (by decide)).2.2.2.2 _ _ rfl (by rw [List.length_replicate]; rfl)
      (by decide),
   (aggregate_reduce_count_cycle (avgOps newest) flecs_week_interval_count
      (by decide) (by decide)).2.2.2.1 _ _ rfl (by rw [List.length_replicate]; rfl)⟩

/-- C9 (as stated, refuted): with `interval = 0` the call does not fail. On a
destination in mid-cycle (`reduce_count = 3`, running sample 5) and a source of
value 7 it makes the three buffer calls, leaves the merged sample
`(3 * 5 + 7) / 4` and sets `reduce_count` to 0. -/
theorem aggregate_interval_zero_runs :
    (AggregateWorldStats (avgOps newest) 0
        { elapsed := 0, reduce_count := 3, stats := [5] }
        { elapsed := 0, reduce_count := 0, stats := [7] }).calls =
      [Call.copy_last, Call.reduce, Call.reduce_last 3] ∧
    (AggregateWorldStats (avgOps newest) 0
        { elapsed := 0, reduce_count := 3, stats := [5] }
        { elapsed := 0, reduce_count := 0, stats := [7] }).dst.stats = [11 / 2] ∧
    (AggregateWorldStats (avgOps newest) 0
        { elapsed := 0, reduce_count := 3, stats := [5] }
        { elapsed := 0, reduce_count := 0, stats := [7] }).dst.reduce_count = 0 := by
  refine ⟨?_, ?_, ?_⟩
  · rw [aggregate_calls_eq]; simp
  · rw [aggregate_stats_eq]; simp [avgOps, newest]; norm_num
  · rw [aggregate_count_eq]; simp [wrap32]

/-- C9 (amended): `AggregateWorldStats` does not check `interval`. For every
`interval <= 0` and every destination with a count `c`, `0 <= c < 2^31 - 1`, the
call makes the same buffer calls and leaves the same buffer as for any other
interval, and sets `reduce_count` to 0. -/
theorem aggregate_nonpositive_interval {W B : Type} (ops : StatsOps W B) (interval : Int)
    (dst src : EcsWorldStats B) (hi : interval ≤ 0)
    (hc0 : 0 ≤ dst.reduce_count) (hc : dst.reduce_count < 2147483647) :
    (AggregateWorldStats ops interval dst src).dst.stats =
        (if dst.reduce_count = 0 then ops.reduce dst.stats src.stats
         else ops.reduce_last (ops.reduce dst.stats src.stats)
                (ops.copy_last ops.last0 dst.stats) dst.reduce_count) ∧
    (AggregateWorldStats ops interval dst src).calls =
        (if dst.reduce_count = 0 then [Call.reduce]
         else [Call.copy_last, Call.reduce, Call.reduce_last dst.reduce_count]) ∧
    (AggregateWorldStats ops interval dst src).dst.reduce_count = 0 ∧
    (AggregateWorldStats ops interval dst src).dst.elapsed = dst.elapsed ∧
    (AggregateWorldStats ops interval dst src).src = src := by
  refine ⟨aggregate_stats_eq ops interval dst src, aggregate_calls_eq ops interval dst src,
    ?_, aggregate_elapsed_eq ops interval dst src, aggregate_src_eq ops interval dst src⟩
  rw [aggregate_count_eq, wrap32_of_range (by omega) (by omega), if_pos (by omega)]

/-- The interval -1 on a destination in mid-cycle (`reduce_count = 2`, running
sample 4) and a source of value 10: the call makes the three buffer calls,
leaves the merged sample `(2 * 4 + 10) / 3` and sets `reduce_count` to 0. -/
theorem aggregate_nonpositive_interval_witness :
    (AggregateWorldStats (avgOps newest) (-1)
        { elapsed := 0, reduce_count := 2, stats := [4] }
        { elapsed := 0, reduce_count := 0, stats := [10] }).dst.stats = [6] ∧
    (AggregateWorldStats (avgOps newest) (-1)
        { elapsed := 0, reduce_count := 2, stats := [4] }
        { elapsed := 0, reduce_count := 0, stats := [10] }).calls =
      [Call.copy_last, Call.reduce, Call.reduce_last 2] ∧
    (AggregateWorldStats (avgOps newest) (-1)
        { elapsed := 0, reduce_count := 2, stats := [4] }
        { elapsed := 0, reduce_count := 0, stats := [10] }).dst.reduce_count = 0 := by
  have h := aggregate_nonpositive_interval (avgOps newest) (-1)
    { elapsed := 0, reduce_count := 2, stats := [4] }
    { elapsed := 0, reduce_count := 0, stats := [10] } (by decide) (by decide) (by decide)
  refine ⟨?_, ?_, h.2.2.1⟩
  · rw [h.1]
    simp [avgOps, newest]
    norm_num
  · rw [h.2.1]
    simp

/-! ## Properties of `ReduceWorldStats` -/

theorem runSystem_keeps_reduce_counts {W B : Type} (fa : FloatArith) (ops : StatsOps W B)
    (real_world : W) (delta_time : ℚ) (e : System) (d : SystemDesc) (hd : descOf e = some d) (w : Tiers B) :
    (runSystem fa ops real_world delta_time d w).m1.reduce_count = w.m1.reduce_count ∧
    (runSystem fa ops real_world delta_time d w).h1.reduce_count = w.h1.reduce_count := by
  cases e <;>
    simp [descOf, FlecsMonitorImport] at hd <;>
    subst hd <;>
    simp [runSystem, Tiers.set, Tiers.get, ReduceWorldStats, aggregate_src_eq]

theorem runSystems_keeps_reduce_counts {W B : Type} (fa : FloatArith) (ops : StatsOps W B)
    (runs : List (System × W × ℚ)) :
    ∀ w : Tiers B,
      (runSystems fa ops runs w).m1.reduce_count = w.m1.reduce_count ∧
      (runSystems fa ops runs w).h1.reduce_count = w.h1.reduce_count := by
  induction runs with
  | nil => intro w; exact ⟨rfl, rfl⟩
  | cons r runs ih =>
      intro w
      obtain ⟨e, real_world, delta_time⟩ := r
      simp only [runSystems]
      cases hd : descOf e with
      | none => exact ih w
      | some d =>
          have hstep := runSystem_keeps_reduce_counts fa ops real_world delta_time e d hd w
          have hrest := ih (runSystem fa ops real_world delta_time d w)
          exact ⟨hrest.1.trans hstep.1, hrest.2.trans hstep.2⟩

/-- C7: one `ReduceWorldStats` call (the stages of the minutes and hours tiers)
leaves `dst.buffer` equal to `reduce(dst.buffer, src.buffer)`, makes no other
buffer call, and leaves `dst.elapsed`, `dst.reduce_count` and the whole source
record unchanged; hence, from the zero-initialised components, the
`reduce_count` of the minutes tier and of the hours tier is 0 after any sequence
of runs of the five registered systems, whatever the arithmetic of `FLECS_FLOAT`. -/
theorem reduce_frame {W B : Type} (fa : FloatArith) (ops : StatsOps W B) :
    (∀ dst src : EcsWorldStats B,
      (ReduceWorldStats ops dst src).dst.stats = ops.reduce dst.stats src.stats ∧
      (ReduceWorldStats ops dst src).dst.elapsed = dst.elapsed ∧
      (ReduceWorldStats ops dst src).dst.reduce_count = dst.reduce_count ∧
      (ReduceWorldStats ops dst src).src = src ∧
      (ReduceWorldStats ops dst src).calls = [Call.reduce]) ∧
    (∀ d ∈ FlecsMonitorImport,
      (d.term1 = Period.EcsPeriod1m ∨ d.term1 = Period.EcsPeriod1h) ↔
        d.callback = Callback.ReduceWorldStats) ∧
    (∀ runs : List (System × W × ℚ),
      (runSystems fa ops runs (initialTiers ops)).m1.reduce_count = 0 ∧
      (runSystems fa ops runs (initialTiers ops)).h1.reduce_count = 0) := by
  refine ⟨fun dst src => ⟨rfl, rfl, rfl, rfl, rfl⟩, ?_, ?_⟩
  · intro d hd
    simp only [FlecsMonitorImport, List.mem_cons, List.mem_singleton, List.not_mem_nil,
      or_false] at hd
    rcases hd with h | h | h | h | h <;> subst h <;> decide
  · intro runs
    have h := runSystems_keeps_reduce_counts fa ops runs (initialTiers ops)
    exact ⟨h.1, h.2⟩

/-! ## The registration -/

/-- C8: what `FlecsMonitorImport` registers for the day and the week stage. Both
are `AggregateWorldStats` systems with `rate = 60` on the tick source
`MonitorWorld1m`, the one-second timer: the day stage (minutes into days,
interval 24) runs every 60 seconds, and the week stage (hours into weeks,
interval 168) also runs every 60 ticks of that timer, that is every 60 seconds
and not every 3600. -/
theorem week_stage_schedule :
    descOf System.MonitorWorld1d = some
      { entity := System.MonitorWorld1d, term1 := Period.EcsPeriod1d,
        term2 := some Period.EcsPeriod1m, callback := Callback.AggregateWorldStats,
        interval := 0, rate := 60, tick_source := some System.MonitorWorld1m,
        ctx := some 24 } ∧
    descOf System.MonitorWorld1w = some
      { entity := System.MonitorWorld1w, term1 := Period.EcsPeriod1w,
        term2 := some Period.EcsPeriod1h, callback := Callback.AggregateWorldStats,
        interval := 0, rate := 60, tick_source := some System.MonitorWorld1m,
        ctx := some 168 } ∧
    secondsPerRun 5 System.MonitorWorld1m = some 1 ∧
    secondsPerRun 5 System.MonitorWorld1h = some 60 ∧
    secondsPerRun 5 System.MonitorWorld1d = some 60 ∧
    secondsPerRun 5 System.MonitorWorld1w = some 60 ∧
    secondsPerRun 5 System.MonitorWorld1w ≠ some 3600 := by
  have hm : descOf System.MonitorWorld1m = some
      { entity := System.MonitorWorld1m, term1 := Period.EcsPeriod1m,
        term2 := some Period.EcsPeriod1s, callback := Callback.ReduceWorldStats,
        interval := 1, rate := 0, tick_source := none, ctx := none } := by
    simp [descOf, FlecsMonitorImport]
  have hh : descOf System.MonitorWorld1h = some
      { entity := System.MonitorWorld1h, term1 := Period.EcsPeriod1h,
        term2 := some Period.EcsPeriod1m, callback := Callback.ReduceWorldStats,
        interval := 0, rate := 60, tick_source := some System.MonitorWorld1m,
        ctx := none } := by
    simp [descOf, FlecsMonitorImport]
  have hd : descOf System.MonitorWorld1d = some
      { entity := System.MonitorWorld1d, term1 := Period.EcsPeriod1d,
        term2 := some Period.EcsPeriod1m, callback := Callback.AggregateWorldStats,
        interval := 0, rate := 60, tick_source := some System.MonitorWorld1m,
        ctx := some 24 } := by
    simp [descOf, FlecsMonitorImport, flecs_day_interval_count]
  have hw : descOf System.MonitorWorld1w = some
      { entity := System.MonitorWorld1w, term1 := Period.EcsPeriod1w,
        term2 := some Period.EcsPeriod1h, callback := Callback.AggregateWorldStats,
        interval := 0, rate := 60, tick_source := some System.MonitorWorld1m,
        ctx := some 168 } := by
    simp [descOf, FlecsMonitorImport, flecs_week_interval_count]
  have pm : ∀ n, secondsPerRun (n + 1) System.MonitorWorld1m = some 1 := by
    intro n
    simp [secondsPerRun, hm]
  have ph : secondsPerRun 5 System.MonitorWorld1h = some 60 := by
    simp [secondsPerRun, hh, hm]
  have pd : secondsPerRun 5 System.MonitorWorld1d = some 60 := by
    simp [secondsPerRun, hd, hm]
  have pw : secondsPerRun 5 System.MonitorWorld1w = some 60 := by
    simp [secondsPerRun, hw, hm]
  refine ⟨hd, hw, pm 4, ph, pd, pw, ?_⟩
  rw [pw]
  norm_num

/-! ## Properties of `MonitorWorldStats` -/

theorem castInt32_of_nonneg (x : ℚ) (h0 : 0 ≤ x) (hx : x < 2147483648) :
    castInt32 x = Int.floor x := by
  have hf0 : 0 ≤ Int.floor x := Int.floor_nonneg.mpr h0
  have hf1 : Int.floor x < 2147483648 := by
    have : ((Int.floor x : Int) : ℚ) < ((2147483648 : Int) : ℚ) :=
      lt_of_le_of_lt (Int.floor_le x) (by exact_mod_cast hx)
    exact_mod_cast this
  unfold castInt32
  rw [if_pos h0]
  exact wrap32_of_range (by omega) hf1

theorem monitor_same_slot {W B : Type} (fa : FloatArith) (ops : StatsOps W B)
    (real_world : W) (delta_time : ℚ) (stats : EcsWorldStats B)
    (h : slotDif fa stats.elapsed delta_time = 0) :
    MonitorWorldStats fa ops real_world delta_time stats =
      ({ elapsed := fa.add stats.elapsed delta_time
         reduce_count := wrap32 (stats.reduce_count + 1)
         stats := ops.reduce_last (ops.get real_world stats.stats)
                    (ops.copy_last ops.last0 stats.stats) (wrap32 (stats.reduce_count + 1)) },
       [Call.copy_last, Call.get, Call.reduce_last (wrap32 (stats.reduce_count + 1))]) := by
  unfold slotDif at h
  unfold MonitorWorldStats
  simp [h]

theorem monitor_plain {W B : Type} (fa : FloatArith) (ops : StatsOps W B) (real_world : W)
    (delta_time : ℚ) (stats : EcsWorldStats B)
    (h0 : slotDif fa stats.elapsed delta_time ≠ 0)
    (h1 : slotDif fa stats.elapsed delta_time ≤ 1) :
    MonitorWorldStats fa ops real_world delta_time stats =
      ({ elapsed := fa.add stats.elapsed delta_time
         reduce_count := stats.reduce_count
         stats := ops.get real_world stats.stats },
       [Call.get]) := by
  unfold slotDif at h0 h1
  unfold MonitorWorldStats
  simp [h0, not_lt.mpr h1]

theorem monitor_backfill {W B : Type} (fa : FloatArith) (ops : StatsOps W B)
    (real_world : W) (delta_time : ℚ) (stats : EcsWorldStats B)
    (h1 : 1 < slotDif fa stats.elapsed delta_time) :
    MonitorWorldStats fa ops real_world delta_time stats =
      ({ elapsed := fa.add stats.elapsed delta_time
         reduce_count := 0
         stats := (backfill ops (slotDif fa stats.elapsed delta_time - 1).toNat
                    (ops.get real_world stats.stats, [Call.get])).1 },
       (backfill ops (slotDif fa stats.elapsed delta_time - 1).toNat
          (ops.get real_world stats.stats, [Call.get])).2) := by
  have h0 : slotDif fa stats.elapsed delta_time ≠ 0 := by omega
  unfold slotDif at h0 h1 ⊢
  unfold MonitorWorldStats
  simp [h0, h1]

theorem slotDif_of_same_index (fa : FloatArith) (elapsed delta_time : ℚ)
    (h : castInt32 (fa.mul elapsed 60) = castInt32 (fa.mul (fa.add elapsed delta_time) 60)) :
    slotDif fa elapsed delta_time = 0 := by
  unfold slotDif
  rw [h, sub_self]
  rfl

/-- C4 (amended): a `MonitorWorldStats` call in which the two slot indices the
code computes are equal, `(int32_t)(elapsed_before * 60) =
(int32_t)(elapsed_after * 60)` with `elapsed_after` the `FLECS_FLOAT` sum
`elapsed_before + delta_time`, both products rounded in `FLECS_FLOAT` and the
cast discarding the fraction, on a count that is an `int32_t` below its largest
value: the resulting buffer is
`reduce_last(get(world, buffer), copy_last(buffer), reduce_count_before + 1)` with
`copy_last` called before `get`, `reduce_count` is increased by exactly 1,
`elapsed` becomes `elapsed_after`, and `repeat_last` is not called; this for
every arithmetic of `FLECS_FLOAT`. (`copy_last` fills the local `last`, which is
`ops.last0` until then.) -/
theorem sampler_in_slot {W B : Type} (fa : FloatArith) (ops : StatsOps W B)
    (real_world : W) (delta_time : ℚ) (stats : EcsWorldStats B)
    (hslot : castInt32 (fa.mul stats.elapsed 60) =
      castInt32 (fa.mul (fa.add stats.elapsed delta_time) 60))
    (hc0 : -2147483648 ≤ stats.reduce_count) (hc : stats.reduce_count < 2147483647) :
    (MonitorWorldStats fa ops real_world delta_time stats).1.stats =
        ops.reduce_last (ops.get real_world stats.stats)
          (ops.copy_last ops.last0 stats.stats) (stats.reduce_count + 1) ∧
    (MonitorWorldStats fa ops real_world delta_time stats).1.reduce_count =
        stats.reduce_count + 1 ∧
    (MonitorWorldStats fa ops real_world delta_time stats).1.elapsed =
        fa.add stats.elapsed delta_time ∧
    (MonitorWorldStats fa ops real_world delta_time stats).2 =
        [Call.copy_last, Call.get, Call.reduce_last (stats.reduce_count + 1)] ∧
    Call.repeat_last ∉ (MonitorWorldStats fa ops real_world delta_time stats).2 := by
  have hd := slotDif_of_same_index fa stats.elapsed delta_time hslot
  have hw : wrap32 (stats.reduce_count + 1) = stats.reduce_count + 1 :=
    wrap32_of_range (by omega) (by omega)
  rw [monitor_same_slot fa ops real_world delta_time stats hd, hw]
  simp

/-- In `float` arithmetic, a second frame of 1/240 s after a first one stays in
slot 0: it merges the fresh snapshot 6 into the sample 2 of the slot with the
count 2, leaving `(2 * 2 + 6) / 3`. -/
theorem sampler_in_slot_witness :
    (MonitorWorldStats binary32 (avgOps newest) 6 (toFloat (1 / 240))
        { elapsed := toFloat (1 / 240), reduce_count := 1, stats := [2] }).1.stats =
      [10 / 3] ∧
    (MonitorWorldStats binary32 (avgOps newest) 6 (toFloat (1 / 240))
        { elapsed := toFloat (1 / 240), reduce_count := 1, stats := [2] }).1.reduce_count =
      2 ∧
    (MonitorWorldStats binary32 (avgOps newest) 6 (toFloat (1 / 240))
        { elapsed := toFloat (1 / 240), reduce_count := 1, stats := [2] }).2 =
      [Call.copy_last, Call.get, Call.reduce_last 2] := by
  have h := sampler_in_slot binary32 (avgOps newest) 6 (toFloat (1 / 240))
    { elapsed := toFloat (1 / 240), reduce_count := 1, stats := [2] }
    (by decide!) (by decide) (by decide)
  refine ⟨?_, h.2.1, h.2.2.2.1⟩
  rw [h.1]
  decide!

/-- C4 (as stated, refuted), in `float` arithmetic on values that are exact in
it. From `elapsed = -1/4` with `delta_time = 1/128` the two floors are both -15,
but the casts give -15 and -14: the call does a plain `get`, without merge and
with the count unchanged. From `elapsed = 9376017 / 2^25` with `delta_time =
1/256` the two floors are both 16, but the product `elapsed_after * 60` rounds
to 17: again a plain `get`. -/
theorem sampler_equal_floors_without_merge :
    (Int.floor ((-1 / 4 : ℚ) * 60) = Int.floor (((-1 / 4 : ℚ) + 1 / 128) * 60) ∧
     MonitorWorldStats binary32 (avgOps newest) 6 (1 / 128)
        { elapsed := -1 / 4, reduce_count := 1, stats := [2] } =
      ({ elapsed := -31 / 128, reduce_count := 1, stats := [2, 6] }, [Call.get])) ∧
    (Int.floor ((9376017 / 33554432 : ℚ) * 60) =
        Int.floor (((9376017 / 33554432 : ℚ) + 1 / 256) * 60) ∧
     castInt32 (binary32.mul (9376017 / 33554432) 60) = 16 ∧
     castInt32 (binary32.mul (binary32.add (9376017 / 33554432) (1 / 256)) 60) = 17 ∧
     MonitorWorldStats binary32 (avgOps newest) 6 (1 / 256)
        { elapsed := 9376017 / 33554432, reduce_count := 1, stats := [2] } =
      ({ elapsed := 9507089 / 33554432, reduce_count := 1, stats := [2, 6] },
       [Call.get])) := by
  decide!

/-- Whenever the product the code computes does not decrease over the call (time
runs forward) and stays within `int32_t`, `MonitorWorldStats` does not reach its
backfill branch: it never calls `repeat_last`, and it leaves `reduce_count` as it
was or incremented. -/
theorem monitor_forward_never_backfills {W B : Type} (fa : FloatArith) (ops : StatsOps W B)
    (real_world : W) (delta_time : ℚ) (stats : EcsWorldStats B)
    (h0 : 0 ≤ fa.mul stats.elapsed 60)
    (hle : fa.mul stats.elapsed 60 ≤ fa.mul (fa.add stats.elapsed delta_time) 60)
    (hr : fa.mul (fa.add stats.elapsed delta_time) 60 < 2147483648) :
    Call.repeat_last ∉ (MonitorWorldStats fa ops real_world delta_time stats).2 ∧
    ((MonitorWorldStats fa ops real_world delta_time stats).1.reduce_count =
        stats.reduce_count ∨
     (MonitorWorldStats fa ops real_world delta_time stats).1.reduce_count =
        wrap32 (stats.reduce_count + 1)) := by
  have e1 := castInt32_of_nonneg _ h0 (lt_of_le_of_lt hle hr)
  have e2 := castInt32_of_nonneg _ (le_trans h0 hle) hr
  have m : Int.floor (fa.mul stats.elapsed 60) ≤
      Int.floor (fa.mul (fa.add stats.elapsed delta_time) 60) := Int.floor_mono hle
  have f0 : 0 ≤ Int.floor (fa.mul stats.elapsed 60) := Int.floor_nonneg.mpr h0
  have f1 : Int.floor (fa.mul (fa.add stats.elapsed delta_time) 60) < 2147483648 := by
    have : ((Int.floor (fa.mul (fa.add stats.elapsed delta_time) 60) : Int) : ℚ) <
        ((2147483648 : Int) : ℚ) := lt_of_le_of_lt (Int.floor_le _) (by exact_mod_cast hr)
    exact_mod_cast this
  have h : slotDif fa stats.elapsed delta_time ≤ 0 := by
    unfold slotDif
    rw [e1, e2, wrap32_of_range (by omega) (by omega)]
    omega
  by_cases hz : slotDif fa stats.elapsed delta_time = 0
  · rw [monitor_same_slot fa ops real_world delta_time stats hz]
    simp
  · rw [monitor_plain fa ops real_world delta_time stats hz (by omega)]
    simp

/-- C3 (the code at the claim's input): one `MonitorWorldStats` call with
`delta_time = 0.05` from `elapsed = 0`, in `float` and in `double` arithmetic,
moves the slot index from 0 to 3, so `dif = 0 - 3 = -3`; the test `dif > 1`
fails, the call makes the single buffer call `get`, no `repeat_last` at all, and
leaves `reduce_count` as it was. The backfill branch is taken when time runs
backward instead: from `elapsed = 0.05` with `delta_time = -0.05` the call makes
two `repeat_last` calls and resets `reduce_count`. -/
theorem sampler_three_slots_forward {W B : Type} (ops : StatsOps W B) (real_world : W)
    (reduce_count : Int) (buffer : B) :
    toFloat (1 / 20) = 13421773 / 268435456 ∧
    slotDif binary32 0 (toFloat (1 / 20)) = -3 ∧
    MonitorWorldStats binary32 ops real_world (toFloat (1 / 20))
        { elapsed := 0, reduce_count := reduce_count, stats := buffer } =
      ({ elapsed := toFloat (1 / 20), reduce_count := reduce_count,
         stats := ops.get real_world buffer }, [Call.get]) ∧
    List.count Call.repeat_last (MonitorWorldStats binary32 ops real_world (toFloat (1 / 20))
        { elapsed := 0, reduce_count := reduce_count, stats := buffer }).2 = 0 ∧
    slotDif binary64 0 (toDouble (1 / 20)) = -3 ∧
    MonitorWorldStats binary64 ops real_world (toDouble (1 / 20))
        { elapsed := 0, reduce_count := reduce_count, stats := buffer } =
      ({ elapsed := toDouble (1 / 20), reduce_count := reduce_count,
         stats := ops.get real_world buffer }, [Call.get]) ∧
    slotDif binary32 (toFloat (1 / 20)) (-toFloat (1 / 20)) = 3 ∧
    MonitorWorldStats binary32 ops real_world (-toFloat (1 / 20))
        { elapsed := toFloat (1 / 20), reduce_count := reduce_count, stats := buffer } =
      ({ elapsed := 0, reduce_count := 0,
         stats := ops.repeat_last (ops.repeat_last (ops.get real_world buffer)) },
       [Call.get, Call.repeat_last, Call.repeat_last]) := by
  have v : toFloat (1 / 20) = 13421773 / 268435456 := by decide!
  have d1 : slotDif binary32 0 (toFloat (1 / 20)) = -3 := by decide!
  have a1 : binary32.add 0 (toFloat (1 / 20)) = toFloat (1 / 20) := by decide!
  have d64 : slotDif binary64 0 (toDouble (1 / 20)) = -3 := by decide!
  have a64 : binary64.add 0 (toDouble (1 / 20)) = toDouble (1 / 20) := by decide!
  have d2 : slotDif binary32 (toFloat (1 / 20)) (-toFloat (1 / 20)) = 3 := by decide!
  have a2 : binary32.add (toFloat (1 / 20)) (-toFloat (1 / 20)) = 0 := by decide!
  have r1 := monitor_plain binary32 ops real_world (toFloat (1 / 20))
    { elapsed := 0, reduce_count := reduce_count, stats := buffer }
    (by show slotDif binary32 0 (toFloat (1 / 20)) ≠ 0; rw [d1]; decide)
    (by show slotDif binary32 0 (toFloat (1 / 20)) ≤ 1; rw [d1]; decide)
  have r64 := monitor_plain binary64 ops real_world (toDouble (1 / 20))
    { elapsed := 0, reduce_count := reduce_count, stats := buffer }
    (by show slotDif binary64 0 (toDouble (1 / 20)) ≠ 0; rw [d64]; decide)
    (by show slotDif binary64 0 (toDouble (1 / 20)) ≤ 1; rw [d64]; decide)
  have r2 := monitor_backfill binary32 ops real_world (-toFloat (1 / 20))
    { elapsed := toFloat (1 / 20), reduce_count := reduce_count, stats := buffer }
    (by show 1 < slotDif binary32 (toFloat (1 / 20)) (-toFloat (1 / 20)); rw [d2]; decide)
  simp only [a1] at r1
  simp only [a64] at r64
  simp only [a2, d2] at r2
  refine ⟨v, d1, r1, ?_, d64, r64, d2, ?_⟩
  · rw [r1]; simp
  · rw [r2]
    rfl

theorem samplerRun_crossing {W B : Type} (fa : FloatArith) (ops : StatsOps W B)
    (frames : List (W × ℚ)) :
    ∀ (stats : EcsWorldStats B) (log : List Call),
      crossesOne fa (frames.map Prod.snd) stats.elapsed = true →
      samplerRun fa ops frames (stats, log) =
        ({ elapsed := elapsedAfter fa (frames.map Prod.snd) stats.elapsed
           reduce_count := stats.reduce_count
           stats := frames.foldl (fun b f => ops.get f.1 b) stats.stats },
         log ++ List.replicate frames.length Call.get) := by
  induction frames with
  | nil =>
      intro stats log _
      simp [samplerRun, elapsedAfter]
  | cons f frames ih =>
      intro stats log hx
      obtain ⟨w, d⟩ := f
      simp only [List.map_cons, crossesOne, Bool.and_eq_true, decide_eq_true_eq] at hx
      have hd : slotDif fa stats.elapsed d = -1 := by
        unfold slotDif
        rw [hx.1]
        have : castInt32 (fa.mul stats.elapsed 60) - (castInt32 (fa.mul stats.elapsed 60) + 1)
            = -1 := by ring
        rw [this]
        rfl
      have step := monitor_plain fa ops w d stats (by rw [hd]; decide) (by rw [hd]; decide)
      simp only [samplerRun, step, List.map_cons, elapsedAfter, List.foldl_cons,
        List.length_cons]
      rw [ih _ _ hx.2]
      simp [List.replicate_succ]

theorem avgOps_get_fold (val : List ℚ → ℚ) (frames : List (ℚ × ℚ)) :
    ∀ buffer : List ℚ,
      frames.foldl (fun b f => (avgOps val).get f.1 b) buffer =
        buffer ++ frames.map Prod.fst := by
  induction frames with
  | nil => intro buffer; simp
  | cons x xs ih =>
      intro buffer
      simp only [List.foldl_cons, List.map_cons]
      rw [ih]
      simp [avgOps]

/-- C6 (amended): from a seconds tier with `elapsed = 0` and `reduce_count = 0`,
60 consecutive `MonitorWorldStats` calls with one `delta_time`, every one of
which moves the slot index the code computes forward by exactly one
(`t_next = t_last + 1`), make exactly 60 `get` calls and no `copy_last`,
`reduce_last` or `repeat_last` call; the run ends with `reduce_count = 0` and
with `elapsed` the `FLECS_FLOAT` sum of the 60 frame times, and the buffer is
the initial one after the 60 snapshots were taken in order: in the
running-average buffer it holds the 60 snapshots, one per call; this for every
arithmetic of `FLECS_FLOAT`. -/
theorem sampler_sixty_frames {W B : Type} (fa : FloatArith) (ops : StatsOps W B)
    (worlds : List W) (delta_time : ℚ) (buffer : B) (h : worlds.length = 60)
    (hx : crossesOne fa (List.replicate 60 delta_time) 0 = true) :
    samplerRun fa ops (worlds.map (fun w => (w, delta_time)))
        ({ elapsed := 0, reduce_count := 0, stats := buffer }, []) =
      ({ elapsed := elapsedAfter fa (List.replicate 60 delta_time) 0, reduce_count := 0,
         stats := worlds.foldl (fun b w => ops.get w b) buffer },
       List.replicate 60 Call.get) ∧
    (∀ (val : List ℚ → ℚ) (snapshots : List ℚ), snapshots.length = 60 →
      (samplerRun fa (avgOps val) (snapshots.map (fun w => (w, delta_time)))
        ({ elapsed := 0, reduce_count := 0, stats := [] }, [])).1.stats = snapshots) := by
  have times : ∀ {W' : Type} (ws : List W'), ws.length = 60 →
      (ws.map (fun w => (w, delta_time))).map Prod.snd = List.replicate 60 delta_time := by
    intro W' ws hl
    rw [List.map_map, ← hl]
    exact List.map_const _ _
  constructor
  · have r := samplerRun_crossing fa ops (worlds.map (fun w => (w, delta_time)))
      { elapsed := 0, reduce_count := 0, stats := buffer } []
      (by rw [times worlds h]; exact hx)
    rw [r, times worlds h, List.length_map, h, List.foldl_map]
    rfl
  · intro val snapshots hl
    have r := samplerRun_crossing fa (avgOps val) (snapshots.map (fun w => (w, delta_time)))
      { elapsed := 0, reduce_count := 0, stats := [] } []
      (by rw [times snapshots hl]; exact hx)
    rw [r]
    simp only [avgOps_get_fold, List.nil_append, List.map_map]
    exact List.map_id _

/-- In `float` arithmetic, 60 frames of `delta_time = 69/4096` (a little over
1/60 s) each cross exactly one slot boundary: the run is 60 `get` calls, the
count stays 0, `elapsed` ends at `60 * 69 / 4096`, and the running-average
buffer holds the 60 snapshots 0, 1, .., 59. -/
theorem sampler_sixty_frames_witness :
    crossesOne binary32 (List.replicate 60 (69 / 4096)) 0 = true ∧
    elapsedAfter binary32 (List.replicate 60 (69 / 4096)) 0 = 1035 / 1024 ∧
    samplerRun binary32 (avgOps newest)
        (((List.range 60).map (fun i : Nat => (i : ℚ))).map (fun w => (w, (69 / 4096 : ℚ))))
        ({ elapsed := 0, reduce_count := 0, stats := [] }, []) =
      ({ elapsed := elapsedAfter binary32 (List.replicate 60 (69 / 4096)) 0,
         reduce_count := 0,
         stats := ((List.range 60).map (fun i : Nat => (i : ℚ))).foldl
                    (fun b w => (avgOps newest).get w b) [] },
       List.replicate 60 Call.get) :=
  ⟨by decide!, by decide!,
   (sampler_sixty_frames binary32 (avgOps newest) ((List.range 60).map (fun i : Nat => (i : ℚ)))
      (69 / 4096) [] (by rw [List.length_map, List.length_range]) (by decide!)).1⟩

/-- C6 (as stated, refuted): in `float` arithmetic, 60 frames of
`delta_time = 1/60` from `elapsed = 0` and `reduce_count = 0` do not each cross
one slot boundary. Frame 44 stays in its slot (`dif = 0` from the `elapsed` that
43 frames leave) and merges in-slot: the run makes 62 buffer calls, among them
one `copy_last` and one `reduce_last 1`, and ends with `reduce_count = 1`,
`elapsed = 16777211 / 16777216` and 59 samples in the running-average buffer.
In `double` arithmetic the run ends with `reduce_count = 3`. -/
theorem sampler_sixty_float_frames_merge :
    crossesOne binary32 (List.replicate 60 (toFloat (1 / 60))) 0 = false ∧
    slotDif binary32 (elapsedAfter binary32 (List.replicate 43 (toFloat (1 / 60))) 0)
      (toFloat (1 / 60)) = 0 ∧
    (samplerRun binary32 (avgOps newest) (sixtieths (toFloat (1 / 60)))
      ({ elapsed := 0, reduce_count := 0, stats := [] }, [])).1.reduce_count = 1 ∧
    (samplerRun binary32 (avgOps newest) (sixtieths (toFloat (1 / 60)))
      ({ elapsed := 0, reduce_count := 0, stats := [] }, [])).1.elapsed =
        16777211 / 16777216 ∧
    (samplerRun binary32 (avgOps newest) (sixtieths (toFloat (1 / 60)))
      ({ elapsed := 0, reduce_count := 0, stats := [] }, [])).2.length = 62 ∧
    List.count Call.copy_last (samplerRun binary32 (avgOps newest)
      (sixtieths (toFloat (1 / 60)))
      ({ elapsed := 0, reduce_count := 0, stats := [] }, [])).2 = 1 ∧
    List.count (Call.reduce_last 1) (samplerRun binary32 (avgOps newest)
      (sixtieths (toFloat (1 / 60)))
      ({ elapsed := 0, reduce_count := 0, stats := [] }, [])).2 = 1 ∧
    (samplerRun binary32 (avgOps newest) (sixtieths (toFloat (1 / 60)))
      ({ elapsed := 0, reduce_count := 0, stats := [] }, [])).1.stats.length = 59 ∧
    (samplerRun binary64 (avgOps newest) (sixtieths (toDouble (1 / 60)))
      ({ elapsed := 0, reduce_count := 0, stats := [] }, [])).1.reduce_count = 3 := by
  decide!

theorem samplerRun_merge_cross_merge {W B : Type} (fa : FloatArith) (ops : StatsOps W B)
    (x1 x2 x3 : W) (d1 d2 d3 : ℚ) (b : B)
    (h1 : slotDif fa 0 d1 = 0) (h2 : slotDif fa (fa.add 0 d1) d2 = -1)
    (h3 : slotDif fa (fa.add (fa.add 0 d1) d2) d3 = 0) :
    samplerRun fa ops [(x1, d1), (x2, d2), (x3, d3)]
        ({ elapsed := 0, reduce_count := 0, stats := b }, []) =
      ({ elapsed := fa.add (fa.add (fa.add 0 d1) d2) d3, reduce_count := 2,
         stats := ops.reduce_last
           (ops.get x3 (ops.get x2
             (ops.reduce_last (ops.get x1 b) (ops.copy_last ops.last0 b) 1)))
           (ops.copy_last ops.last0 (ops.get x2
             (ops.reduce_last (ops.get x1 b) (ops.copy_last ops.last0 b) 1)))
           2 },
       [Call.copy_last, Call.get, Call.reduce_last 1, Call.get,
        Call.copy_last, Call.get, Call.reduce_last 2]) := by
  have s1 := monitor_same_slot fa ops x1 d1
    { elapsed := 0, reduce_count := 0, stats := b } h1
  have w1 : wrap32 ((0 : Int) + 1) = 1 := rfl
  simp only [w1] at s1
  have s2 := monitor_plain fa ops x2 d2
    { elapsed := fa.add 0 d1, reduce_count := 1,
      stats := ops.reduce_last (ops.get x1 b) (ops.copy_last ops.last0 b) 1 }
    (by show slotDif fa (fa.add 0 d1) d2 ≠ 0; rw [h2]; decide)
    (by show slotDif fa (fa.add 0 d1) d2 ≤ 1; rw [h2]; decide)
  have s3 := monitor_same_slot fa ops x3 d3
    { elapsed := fa.add (fa.add 0 d1) d2, reduce_count := 1,
      stats := ops.get x2
        (ops.reduce_last (ops.get x1 b) (ops.copy_last ops.last0 b) 1) } h3
  have w2 : wrap32 ((1 : Int) + 1) = 2 := rfl
  simp only [w2] at s3
  simp only [samplerRun, s1, s2, s3]
  simp

/-- C10 (the code at a failing sequence): three frames from `elapsed = 0` and
`reduce_count = 0`, with `delta_time` 1/240, 1/60 and 1/240, in `float` and in
`double` arithmetic. The first stays in slot 0 (count 1), the second crosses
exactly one boundary into slot 1 and leaves the count at 1, the third stays in
slot 1 and merges with the count 2: it calls `reduce_last(buffer, last, 2)`, not
`reduce_last(buffer, last, 1)`. In the running-average buffer with the snapshots
8, 10 and 40, the sample of slot 1 becomes `(2 * 10 + 40) / 3 = 20`, not the
average 25 of the snapshots 10 and 40 taken in that slot. -/
theorem sampler_count_survives_boundary {W B : Type} (ops : StatsOps W B)
    (w1 w2 w3 : W) (buffer : B) :
    slotDif binary32 0 (toFloat (1 / 240)) = 0 ∧
    slotDif binary32 (binary32.add 0 (toFloat (1 / 240))) (toFloat (1 / 60)) = -1 ∧
    slotDif binary32 (binary32.add (binary32.add 0 (toFloat (1 / 240))) (toFloat (1 / 60)))
      (toFloat (1 / 240)) = 0 ∧
    samplerRun binary32 ops
        [(w1, toFloat (1 / 240)), (w2, toFloat (1 / 60)), (w3, toFloat (1 / 240))]
        ({ elapsed := 0, reduce_count := 0, stats := buffer }, []) =
      ({ elapsed := 13421773 / 536870912, reduce_count := 2,
         stats := ops.reduce_last
           (ops.get w3 (ops.get w2
             (ops.reduce_last (ops.get w1 buffer) (ops.copy_last ops.last0 buffer) 1)))
           (ops.copy_last ops.last0 (ops.get w2
             (ops.reduce_last (ops.get w1 buffer) (ops.copy_last ops.last0 buffer) 1)))
           2 },
       [Call.copy_last, Call.get, Call.reduce_last 1, Call.get,
        Call.copy_last, Call.get, Call.reduce_last 2]) ∧
    samplerRun binary64 ops
        [(w1, toDouble (1 / 240)), (w2, toDouble (1 / 60)), (w3, toDouble (1 / 240))]
        ({ elapsed := 0, reduce_count := 0, stats := buffer }, []) =
      ({ elapsed := 7205759403792793 / 288230376151711744, reduce_count := 2,
         stats := ops.reduce_last
           (ops.get w3 (ops.get w2
             (ops.reduce_last (ops.get w1 buffer) (ops.copy_last ops.last0 buffer) 1)))
           (ops.copy_last ops.last0 (ops.get w2
             (ops.reduce_last (ops.get w1 buffer) (ops.copy_last ops.last0 buffer) 1)))
           2 },
       [Call.copy_last, Call.get, Call.reduce_last 1, Call.get,
        Call.copy_last, Call.get, Call.reduce_last 2]) ∧
    (samplerRun binary32 (avgOps newest)
        [(8, toFloat (1 / 240)), (10, toFloat (1 / 60)), (40, toFloat (1 / 240))]
        ({ elapsed := 0, reduce_count := 0, stats := [] }, [])).1.stats = [4, 20] ∧
    ((10 : ℚ) + 40) / 2 = 25 := by
  have d1 : slotDif binary32 0 (toFloat (1 / 240)) = 0 := by decide!
  have d2 : slotDif binary32 (binary32.add 0 (toFloat (1 / 240))) (toFloat (1 / 60)) = -1 := by
    decide!
  have d3 : slotDif binary32
      (binary32.add (binary32.add 0 (toFloat (1 / 240))) (toFloat (1 / 60)))
      (toFloat (1 / 240)) = 0 := by decide!
  have e32 : binary32.add (binary32.add (binary32.add 0 (toFloat (1 / 240)))
      (toFloat (1 / 60))) (toFloat (1 / 240)) = 13421773 / 536870912 := by decide!
  have c1 : slotDif binary64 0 (toDouble (1 / 240)) = 0 := by decide!
  have c2 : slotDif binary64 (binary64.add 0 (toDouble (1 / 240))) (toDouble (1 / 60)) = -1 := by
    decide!
  have c3 : slotDif binary64
      (binary64.add (binary64.add 0 (toDouble (1 / 240))) (toDouble (1 / 60)))
      (toDouble (1 / 240)) = 0 := by decide!
  have e64 : binary64.add (binary64.add (binary64.add 0 (toDouble (1 / 240)))
      (toDouble (1 / 60))) (toDouble (1 / 240)) =
      7205759403792793 / 288230376151711744 := by decide!
  have r32 := samplerRun_merge_cross_merge binary32 ops w1 w2 w3 _ _ _ buffer d1 d2 d3
  have r64 := samplerRun_merge_cross_merge binary64 ops w1 w2 w3 _ _ _ buffer c1 c2 c3
  rw [e32] at r32
  rw [e64] at r64
  exact ⟨d1, d2, d3, r32, r64, by decide!, by norm_num⟩

/-! ## The aggregation cycle in the running-average buffer -/

theorem newest_concat (b : List ℚ) (x : ℚ) : newest (b ++ [x]) = x := by
  simp [newest]

theorem avg_step_zero (val : List ℚ → ℚ) (interval : Int)
    (dst src : EcsWorldStats (List ℚ)) (h : dst.reduce_count = 0) :
    (AggregateWorldStats (avgOps val) interval dst src).dst.stats =
      dst.stats ++ [val src.stats] := by
  rw [aggregate_stats_eq, if_pos h]
  rfl

theorem avg_step_pos (val : List ℚ → ℚ) (interval : Int)
    (dst src : EcsWorldStats (List ℚ)) (h : dst.reduce_count ≠ 0) (d : List ℚ) (A : ℚ)
    (hs : dst.stats = d ++ [A]) :
    (AggregateWorldStats (avgOps val) interval dst src).dst.stats =
      d ++ [((dst.reduce_count : ℚ) * A + val src.stats) / ((dst.reduce_count : ℚ) + 1)] := by
  rw [aggregate_stats_eq, if_neg h, hs]
  simp [avgOps, newest]

theorem avg_run_mid (val : List ℚ → ℚ) (interval : Int) (h32 : interval < 2147483648)
    (srcs : List (EcsWorldStats (List ℚ))) :
    ∀ (dst : EcsWorldStats (List ℚ)) (d : List ℚ) (A : ℚ), dst.stats = d ++ [A] →
      0 < dst.reduce_count → dst.reduce_count + (srcs.length : Int) ≤ interval →
      (aggregateRun (avgOps val) interval srcs dst).stats =
        d ++ [((dst.reduce_count : ℚ) * A + (srcs.map (fun s => val s.stats)).sum) /
          ((dst.reduce_count : ℚ) + (srcs.length : ℚ))] := by
  induction srcs with
  | nil =>
      intro dst d A hs hc _
      have hq : (dst.reduce_count : ℚ) ≠ 0 := by
        have : (0 : ℚ) < (dst.reduce_count : ℚ) := by exact_mod_cast hc
        exact ne_of_gt this
      simp [aggregateRun, hq, hs]
  | cons src rest ih =>
      intro dst d A hs hc hle
      simp only [List.length_cons, Nat.cast_add, Nat.cast_one] at hle
      have hq : (0 : ℚ) < (dst.reduce_count : ℚ) := by exact_mod_cast hc
      have hstats := avg_step_pos val interval dst src (by omega) d A hs
      have hcount := aggregate_count_step (avgOps val) interval h32 dst src (by omega)
        (by omega)
      by_cases hend : dst.reduce_count + 1 = interval
      · have hz : rest = [] := List.length_eq_zero.mp (by omega)
        subst hz
        simp only [aggregateRun, hstats, List.map_cons, List.map_nil,
          List.sum_cons, List.sum_nil, add_zero, List.length_cons, List.length_nil,
          zero_add, Nat.cast_one]
      · have hlt : dst.reduce_count + 1 < interval := by omega
        rw [Int.emod_eq_of_lt (by omega) hlt] at hcount
        have hi := ih (AggregateWorldStats (avgOps val) interval dst src).dst d _ hstats
          (by rw [hcount]; omega) (by rw [hcount]; omega)
        rw [hcount] at hi
        simp only [aggregateRun, List.map_cons, List.sum_cons, List.length_cons]
        rw [hi]
        have hr : (0 : ℚ) ≤ (rest.length : ℚ) := Nat.cast_nonneg _
        have h1 : (dst.reduce_count : ℚ) + 1 ≠ 0 := by positivity
        push_cast
        rw [mul_div_cancel₀ _ h1]
        congr 2
        ring

theorem sum_of_constant (S : ℚ) (xs : List ℚ) (h : ∀ x ∈ xs, x = S) :
    xs.sum = (xs.length : ℚ) * S := by
  induction xs with
  | nil => simp
  | cons x xs ih =>
      have hx : x = S := h x (List.mem_cons_self _ _)
      have ht : ∀ y ∈ xs, y = S := fun y hy => h y (List.mem_cons_of_mem _ hy)
      simp only [List.sum_cons, List.length_cons, Nat.cast_add, Nat.cast_one]
      rw [ih ht, hx]
      ring

theorem mean_of_constant (S : ℚ) (xs : List ℚ) (hne : xs ≠ []) (h : ∀ x ∈ xs, x = S) :
    mean xs = S := by
  have hl : (xs.length : ℚ) ≠ 0 := by
    have : xs.length ≠ 0 := fun e => hne (List.length_eq_zero.mp e)
    exact_mod_cast this
  unfold mean
  rw [sum_of_constant S xs h, mul_div_cancel_left₀ _ hl]

theorem avg_run_cycle (val : List ℚ → ℚ) (interval : Int) (h1 : 1 ≤ interval)
    (h32 : interval < 2147483648) (dst : EcsWorldStats (List ℚ))
    (srcs : List (EcsWorldStats (List ℚ))) (h0 : dst.reduce_count = 0)
    (hl : (srcs.length : Int) = interval) :
    (aggregateRun (avgOps val) interval srcs dst).stats =
      dst.stats ++ [mean (srcs.map (fun s => val s.stats))] := by
  cases srcs with
  | nil => simp at hl; omega
  | cons src rest =>
      simp only [List.length_cons, Nat.cast_add, Nat.cast_one] at hl
      have hstats := avg_step_zero val interval dst src h0
      have hstep := aggregate_count_step (avgOps val) interval h32 dst src (by omega)
        (by omega)
      rw [h0, zero_add] at hstep
      by_cases hone : interval = 1
      · have hz : rest = [] := List.length_eq_zero.mp (by omega)
        subst hz
        simp [aggregateRun, hstats, mean]
      · have hlt : (1 : Int) < interval := by omega
        rw [Int.emod_eq_of_lt (by omega) hlt] at hstep
        have hmid := avg_run_mid val interval h32 rest
          (AggregateWorldStats (avgOps val) interval dst src).dst dst.stats _ hstats
          (by rw [hstep]; omega) (by rw [hstep]; omega)
        rw [hstep] at hmid
        simp only [aggregateRun, List.map_cons, List.length_cons]
        rw [hmid]
        unfold mean
        simp only [List.sum_cons, List.length_cons, List.length_map]
        push_cast
        congr 2
        ring

/-- C5: in the running-average buffer (`reduce` appends the value of the source
as the newest sample of the destination, `reduce_last(dst, last, w)` puts
`(w * last + newest) / (w + 1)` in place of that newest sample and of the running
sample it is folded into; exact rationals), for every `interval >= 1` and inputs
`m_1 .. m_interval`, after exactly `interval` consecutive `AggregateWorldStats`
calls from `reduce_count = 0` the destination is its initial buffer followed by
one new sample, the arithmetic mean of the inputs: its newest sample is that
mean (it is `S` when every input is `S`), it has gained exactly one sample over
the whole cycle, and `reduce_count` is 0 again. -/
theorem aggregate_cycle_mean (val : List ℚ → ℚ) (interval : Int) (h1 : 1 ≤ interval)
    (h32 : interval < 2147483648) (dst : EcsWorldStats (List ℚ))
    (srcs : List (EcsWorldStats (List ℚ))) (h0 : dst.reduce_count = 0)
    (hl : (srcs.length : Int) = interval) :
    (aggregateRun (avgOps val) interval srcs dst).stats =
        dst.stats ++ [mean (srcs.map (fun s => val s.stats))] ∧
    newest (aggregateRun (avgOps val) interval srcs dst).stats =
        mean (srcs.map (fun s => val s.stats)) ∧
    (∀ S : ℚ, (∀ s ∈ srcs, val s.stats = S) →
      newest (aggregateRun (avgOps val) interval srcs dst).stats = S) ∧
    (aggregateRun (avgOps val) interval srcs dst).stats.length = dst.stats.length + 1 ∧
    (aggregateRun (avgOps val) interval srcs dst).reduce_count = 0 := by
  have hcount : (aggregateRun (avgOps val) interval srcs dst).reduce_count = 0 := by
    rw [aggregateRun_count (avgOps val) interval h1 h32 srcs dst (by omega) (by omega),
      h0, zero_add, hl, Int.emod_self]
  have hrun := avg_run_cycle val interval h1 h32 dst srcs h0 hl
  have hnew : newest (aggregateRun (avgOps val) interval srcs dst).stats =
      mean (srcs.map (fun s => val s.stats)) := by
    rw [hrun, newest_concat]
  refine ⟨hrun, hnew, ?_, ?_, hcount⟩
  · intro S hS
    rw [hnew]
    apply mean_of_constant
    · intro e
      have : srcs = [] := List.map_eq_nil_iff.mp e
      rw [this] at hl
      simp at hl
      omega
    · intro x hx
      obtain ⟨s, hs, rfl⟩ := List.mem_map.mp hx
      exact hS s hs
  · rw [hrun]
    simp

/-- The cycle of the interval 3 with the inputs 3, 6, 9 on a destination that
holds the sample 100: the destination ends as 100 followed by the mean 6. -/
theorem aggregate_cycle_mean_witness :
    (aggregateRun (avgOps newest) 3
        [{ elapsed := 0, reduce_count := 0, stats := [3] },
         { elapsed := 0, reduce_count := 0, stats := [6] },
         { elapsed := 0, reduce_count := 0, stats := [9] }]
        { elapsed := 0, reduce_count := 0, stats := [100] }).stats = [100, 6] ∧
    (aggregateRun (avgOps newest) 3
        [{ elapsed := 0, reduce_count := 0, stats := [3] },
         { elapsed := 0, reduce_count := 0, stats := [6] },
         { elapsed := 0, reduce_count := 0, stats := [9] }]
        { elapsed := 0, reduce_count := 0, stats := [100] }).reduce_count = 0 := by
  have h := aggregate_cycle_mean newest 3 (by decide) (by decide)
    { elapsed := 0, reduce_count := 0, stats := [100] }
    [{ elapsed := 0, reduce_count := 0, stats := [3] },
     { elapsed := 0, reduce_count := 0, stats := [6] },
     { elapsed := 0, reduce_count := 0, stats := [9] }] rfl rfl
  refine ⟨?_, h.2.2.2.2⟩
  rw [h.1]
  decide!

end Monitor
